import Mathlib

/-!
Verification of the mixed-supervision knowledge-distillation training script
`Fast_Human_Pose_Estimation_Pytorch/example/mpii_kd.py`.

Heatmaps are embedded as flat lists of rationals (the channel×height×width
elements of one sample), a batch of heatmaps as a function `Fin B → List ℚ`,
and the multi-stage student output as a list of such batches.  All
arithmetic is exact (ℚ).
-/

set_option autoImplicit false

namespace MpiiKD

/-- Embedding of `criterion = torch.nn.MSELoss(size_average=True)` (line 60)
applied to the heatmap of one sample: mean of the per-element squared errors over
the channel×height×width elements. -/
def mseQ (a b : List ℚ) : ℚ :=
  ((List.zipWith (fun x y => (x - y) ^ 2) a b).sum) / (a.length : ℚ)

/-- The three loss accumulators of `train` (lines 199-201):
`gtloss`, `kdloss`, `kdloss_unlabeled`, all initialised to 0. -/
structure KDLossAcc where
  gtloss : ℚ
  kdloss : ℚ
  kdloss_unlabeled : ℚ
  deriving DecidableEq

/-- Body of the inner per-sample loop of `train` (lines 209-217): sample `i`
is unlabeled when `gtmask[i] < 0.1` and contributes only to
`kdloss_unlabeled`; otherwise it contributes to both `gtloss` and `kdloss`.
Every contribution is divided by the full batch size `train_batch = B`
(line 205). -/
def sampleStep {B : ℕ} (stage_output toutput target_var : Fin B → List ℚ)
    (gtmask : Fin B → ℚ) (acc : KDLossAcc) (i : Fin B) : KDLossAcc :=
  if gtmask i < 1 / 10 then
    { acc with
        kdloss_unlabeled :=
          acc.kdloss_unlabeled + mseQ (stage_output i) (toutput i) / (B : ℚ) }
  else
    { acc with
        gtloss := acc.gtloss + mseQ (stage_output i) (target_var i) / (B : ℚ)
        kdloss := acc.kdloss + mseQ (stage_output i) (toutput i) / (B : ℚ) }

/-- One iteration of the outer per-stage loop of `train` (lines 207-217):
run the per-sample loop over the whole batch for one student stage. -/
def stageStep {B : ℕ} (toutput target_var : Fin B → List ℚ) (gtmask : Fin B → ℚ)
    (acc : KDLossAcc) (stage_output : Fin B → List ℚ) : KDLossAcc :=
  (List.finRange B).foldl (sampleStep stage_output toutput target_var gtmask) acc

/-- The full double loop of `train` (lines 199-217): fold the per-stage step
over the list of student stage outputs, starting from zero accumulators. -/
def trainLosses (B : ℕ) (output : List (Fin B → List ℚ))
    (toutput target_var : Fin B → List ℚ) (gtmask : Fin B → ℚ) : KDLossAcc :=
  output.foldl (stageStep toutput target_var gtmask) ⟨0, 0, 0⟩

/-- `unkdloss_alpha = 1.0` (line 202). -/
def unkdloss_alpha : ℚ := 1

/-- `loss_labeled = kdloss_alpha * kdloss + (1 - kdloss_alpha) * gtloss`
(line 219). -/
def loss_labeled (kdloss_alpha : ℚ) (acc : KDLossAcc) : ℚ :=
  kdloss_alpha * acc.kdloss + (1 - kdloss_alpha) * acc.gtloss

/-- `total_loss = loss_labeled + unkdloss_alpha * kdloss_unlabeled`
(line 220). -/
def total_loss (kdloss_alpha : ℚ) (acc : KDLossAcc) : ℚ :=
  loss_labeled kdloss_alpha acc + unkdloss_alpha * acc.kdloss_unlabeled

/-- Spec-form ground-truth loss: sum over every stage and every labeled
sample (`mask[i] ≥ 0.1`) of the per-sample mean squared error against the
ground truth, divided by the full batch size `B`.  Stated from the wording of the spec for comparison with `trainLosses`. -/
def spec_gt_loss (B : ℕ) (output : List (Fin B → List ℚ))
    (target_var : Fin B → List ℚ) (gtmask : Fin B → ℚ) : ℚ :=
  (output.map (fun s =>
    ∑ i : Fin B,
      if gtmask i < 1 / 10 then 0 else mseQ (s i) (target_var i) / (B : ℚ))).sum

/-- Spec-form labeled distillation loss: sum over every stage and every
labeled sample of the per-sample mean squared error against the teacher,
divided by the full batch size `B`. -/
def spec_labeled_kd (B : ℕ) (output : List (Fin B → List ℚ))
    (toutput : Fin B → List ℚ) (gtmask : Fin B → ℚ) : ℚ :=
  (output.map (fun s =>
    ∑ i : Fin B,
      if gtmask i < 1 / 10 then 0 else mseQ (s i) (toutput i) / (B : ℚ))).sum

/-- Spec-form unlabeled distillation loss: sum over every stage and every
unlabeled sample (`mask[i] < 0.1`) of the per-sample mean squared error
against the teacher, divided by the full batch size `B`. -/
def spec_unlabeled_kd (B : ℕ) (output : List (Fin B → List ℚ))
    (toutput : Fin B → List ℚ) (gtmask : Fin B → ℚ) : ℚ :=
  (output.map (fun s =>
    ∑ i : Fin B,
      if gtmask i < 1 / 10 then mseQ (s i) (toutput i) / (B : ℚ) else 0)).sum

/-- Folding the per-sample step over any index list adds the three
corresponding selective sums onto the accumulator components. -/
theorem sampleStep_foldl {B : ℕ} (stage_output toutput target_var : Fin B → List ℚ)
    (gtmask : Fin B → ℚ) (l : List (Fin B)) (acc : KDLossAcc) :
    l.foldl (sampleStep stage_output toutput target_var gtmask) acc =
      ⟨acc.gtloss + (l.map (fun i =>
          if gtmask i < 1 / 10 then 0
          else mseQ (stage_output i) (target_var i) / (B : ℚ))).sum,
       acc.kdloss + (l.map (fun i =>
          if gtmask i < 1 / 10 then 0
          else mseQ (stage_output i) (toutput i) / (B : ℚ))).sum,
       acc.kdloss_unlabeled + (l.map (fun i =>
          if gtmask i < 1 / 10 then mseQ (stage_output i) (toutput i) / (B : ℚ)
          else 0)).sum⟩ := by
  induction l generalizing acc with
  | nil => simp
  | cons i l ih =>
      rw [List.foldl_cons, sampleStep]
      by_cases h : gtmask i < 1 / 10
      · rw [if_pos h, ih]
        simp only [List.map_cons, List.sum_cons, if_pos h, KDLossAcc.mk.injEq,
          zero_add, add_assoc]
      · rw [if_neg h, ih]
        simp only [List.map_cons, List.sum_cons, if_neg h, KDLossAcc.mk.injEq,
          zero_add, add_assoc]

/-- One stage step adds the three per-stage selective batch sums. -/
theorem stageStep_eq {B : ℕ} (toutput target_var : Fin B → List ℚ)
    (gtmask : Fin B → ℚ) (acc : KDLossAcc) (stage_output : Fin B → List ℚ) :
    stageStep toutput target_var gtmask acc stage_output =
      ⟨acc.gtloss + ∑ i : Fin B,
          (if gtmask i < 1 / 10 then 0
           else mseQ (stage_output i) (target_var i) / (B : ℚ)),
       acc.kdloss + ∑ i : Fin B,
          (if gtmask i < 1 / 10 then 0
           else mseQ (stage_output i) (toutput i) / (B : ℚ)),
       acc.kdloss_unlabeled + ∑ i : Fin B,
          (if gtmask i < 1 / 10 then mseQ (stage_output i) (toutput i) / (B : ℚ)
           else 0)⟩ := by
  rw [stageStep, sampleStep_foldl]
  simp [Fin.sum_univ_def]

/-- The loop of `train` computes exactly the three spec-form components. -/
theorem trainLosses_eq (B : ℕ) (output : List (Fin B → List ℚ))
    (toutput target_var : Fin B → List ℚ) (gtmask : Fin B → ℚ) :
    trainLosses B output toutput target_var gtmask =
      ⟨spec_gt_loss B output target_var gtmask,
       spec_labeled_kd B output toutput gtmask,
       spec_unlabeled_kd B output toutput gtmask⟩ := by
  suffices h : ∀ (acc : KDLossAcc),
      output.foldl (stageStep toutput target_var gtmask) acc =
        ⟨acc.gtloss + spec_gt_loss B output target_var gtmask,
         acc.kdloss + spec_labeled_kd B output toutput gtmask,
         acc.kdloss_unlabeled + spec_unlabeled_kd B output toutput gtmask⟩ by
    simpa [trainLosses] using h ⟨0, 0, 0⟩
  induction output with
  | nil => intro acc; simp [spec_gt_loss, spec_labeled_kd, spec_unlabeled_kd]
  | cons s rest ih =>
      intro acc
      simp only [List.foldl_cons, stageStep_eq, ih,
        spec_gt_loss, spec_labeled_kd, spec_unlabeled_kd, List.map_cons,
        List.sum_cons, add_assoc]

/-- Claim C1: the training loss equals
α·(labeled distillation loss) + (1−α)·(ground-truth loss) + 1.0·(unlabeled
distillation loss), where each component sums, over every stage and every
sample in its regime (`mask[i] < 0.1` unlabeled, otherwise labeled), the
squared error mean-reduced over the channel×height×width elements of that
heatmap of that sample, divided by the full batch size `B`. -/
theorem c1_total_loss_decomposition (B : ℕ) (output : List (Fin B → List ℚ))
    (toutput target_var : Fin B → List ℚ) (gtmask : Fin B → ℚ)
    (kdloss_alpha : ℚ) :
    total_loss kdloss_alpha (trainLosses B output toutput target_var gtmask) =
      kdloss_alpha * spec_labeled_kd B output toutput gtmask
        + (1 - kdloss_alpha) * spec_gt_loss B output target_var gtmask
        + 1 * spec_unlabeled_kd B output toutput gtmask := by
  rw [trainLosses_eq]
  simp only [total_loss, loss_labeled, unkdloss_alpha]

/-- Permuting the batch axis of every argument leaves a spec-form component
built from any per-sample term unchanged. -/
theorem spec_map_sum_perm {B : ℕ} (σ : Equiv.Perm (Fin B))
    (output : List (Fin B → List ℚ)) (gP g : (Fin B → List ℚ) → Fin B → ℚ)
    (hg : ∀ (t : Fin B → List ℚ) (i : Fin B), gP (t ∘ σ) i = g t (σ i)) :
    ((output.map (fun s => s ∘ σ)).map (fun s => ∑ i : Fin B, gP s i)).sum =
      (output.map (fun s => ∑ i : Fin B, g s i)).sum := by
  rw [List.map_map]
  refine congrArg List.sum (List.map_congr_left fun t _ => ?_)
  show (∑ i : Fin B, gP (t ∘ σ) i) = ∑ i : Fin B, g t i
  calc (∑ i : Fin B, gP (t ∘ σ) i) = ∑ i : Fin B, g t (σ i) :=
        Finset.sum_congr rfl fun i _ => hg t i
    _ = ∑ i : Fin B, g t i := Equiv.sum_comp σ (g t)

/-- Claim C4: applying one permutation of the batch axis identically to all
student stage outputs, the teacher output, the ground truth and the label
mask leaves the total training loss unchanged (exact arithmetic). -/
theorem c4_total_loss_perm_invariant (B : ℕ) (output : List (Fin B → List ℚ))
    (toutput target_var : Fin B → List ℚ) (gtmask : Fin B → ℚ)
    (kdloss_alpha : ℚ) (σ : Equiv.Perm (Fin B)) :
    total_loss kdloss_alpha
        (trainLosses B (output.map (fun s => s ∘ σ)) (toutput ∘ σ)
          (target_var ∘ σ) (gtmask ∘ σ)) =
      total_loss kdloss_alpha (trainLosses B output toutput target_var gtmask) := by
  have hgt : spec_gt_loss B (output.map (fun s => s ∘ σ)) (target_var ∘ σ)
      (gtmask ∘ σ) = spec_gt_loss B output target_var gtmask := by
    unfold spec_gt_loss
    exact spec_map_sum_perm σ output
      (fun s i => if (gtmask ∘ σ) i < 1 / 10 then 0
        else mseQ (s i) ((target_var ∘ σ) i) / (B : ℚ))
      (fun s i => if gtmask i < 1 / 10 then 0 else mseQ (s i) (target_var i) / (B : ℚ))
      (fun t i => rfl)
  have hkd : spec_labeled_kd B (output.map (fun s => s ∘ σ)) (toutput ∘ σ)
      (gtmask ∘ σ) = spec_labeled_kd B output toutput gtmask := by
    unfold spec_labeled_kd
    exact spec_map_sum_perm σ output
      (fun s i => if (gtmask ∘ σ) i < 1 / 10 then 0
        else mseQ (s i) ((toutput ∘ σ) i) / (B : ℚ))
      (fun s i => if gtmask i < 1 / 10 then 0 else mseQ (s i) (toutput i) / (B : ℚ))
      (fun t i => rfl)
  have hunkd : spec_unlabeled_kd B (output.map (fun s => s ∘ σ)) (toutput ∘ σ)
      (gtmask ∘ σ) = spec_unlabeled_kd B output toutput gtmask := by
    unfold spec_unlabeled_kd
    exact spec_map_sum_perm σ output
      (fun s i => if (gtmask ∘ σ) i < 1 / 10 then mseQ (s i) ((toutput ∘ σ) i) / (B : ℚ)
        else 0)
      (fun s i => if gtmask i < 1 / 10 then mseQ (s i) (toutput i) / (B : ℚ) else 0)
      (fun t i => rfl)
  rw [trainLosses_eq, trainLosses_eq]
  simp only [total_loss, loss_labeled, unkdloss_alpha]
  rw [hgt, hkd, hunkd]

/-- Congruence for the unlabeled distillation component: it only reads the
student and teacher heatmaps of samples with `gtmask i < 0.1`. -/
theorem spec_unlabeled_kd_congr {B : ℕ}
    {output output' : List (Fin B → List ℚ)}
    {toutput toutput' : Fin B → List ℚ} {gtmask : Fin B → ℚ}
    (houts : List.Forall₂ (fun s s' => ∀ i, gtmask i < 1 / 10 → s i = s' i)
      output output')
    (hto : ∀ i, gtmask i < 1 / 10 → toutput i = toutput' i) :
    spec_unlabeled_kd B output toutput gtmask =
      spec_unlabeled_kd B output' toutput' gtmask := by
  unfold spec_unlabeled_kd
  induction houts with
  | nil => rfl
  | cons hs hrest ih =>
      simp only [List.map_cons, List.sum_cons, ih]
      congr 1
      refine Finset.sum_congr rfl fun i _ => ?_
      by_cases h : gtmask i < 1 / 10
      · rw [if_pos h, if_pos h, hs i h, hto i h]
      · rw [if_neg h, if_neg h]

/-- Congruence for the ground-truth and labeled-distillation components:
they only read samples with `gtmask i ≥ 0.1`. -/
theorem spec_labeled_congr {B : ℕ}
    {output output' : List (Fin B → List ℚ)}
    {reference reference' : Fin B → List ℚ} {gtmask : Fin B → ℚ}
    (houts : List.Forall₂ (fun s s' => ∀ i, ¬gtmask i < 1 / 10 → s i = s' i)
      output output')
    (href : ∀ i, ¬gtmask i < 1 / 10 → reference i = reference' i) :
    (output.map (fun s => ∑ i : Fin B,
        if gtmask i < 1 / 10 then 0 else mseQ (s i) (reference i) / (B : ℚ))).sum =
      (output'.map (fun s => ∑ i : Fin B,
        if gtmask i < 1 / 10 then 0 else mseQ (s i) (reference' i) / (B : ℚ))).sum := by
  induction houts with
  | nil => rfl
  | cons hs hrest ih =>
      simp only [List.map_cons, List.sum_cons, ih]
      congr 1
      refine Finset.sum_congr rfl fun i _ => ?_
      by_cases h : gtmask i < 1 / 10
      · rw [if_pos h, if_pos h]
      · rw [if_neg h, if_neg h, hs i h, href i h]

/-- When no sample satisfies the selection predicate of a spec-form
component, that component is zero. -/
theorem spec_sum_eq_zero {B : ℕ} (output : List (Fin B → List ℚ))
    (g : (Fin B → List ℚ) → Fin B → ℚ)
    (hg : ∀ s i, g s i = 0) :
    (output.map (fun s => ∑ i : Fin B, g s i)).sum = 0 := by
  refine List.sum_eq_zero fun x hx => ?_
  obtain ⟨s, _, rfl⟩ := List.mem_map.mp hx
  exact Finset.sum_eq_zero fun i _ => hg s i

/-- Claim C2: the unlabeled distillation loss depends only on the student and
teacher heatmaps of samples with `mask[i] < 0.1` and is exactly 0 when every
sample has `mask[i] ≥ 0.1`; the ground-truth loss and the labeled
distillation loss depend only on samples with `mask[i] ≥ 0.1` and both are
exactly 0 when every sample has `mask[i] < 0.1`. -/
theorem c2_component_dependence (B : ℕ)
    (output output' : List (Fin B → List ℚ))
    (toutput toutput' target_var target_var' : Fin B → List ℚ)
    (gtmask : Fin B → ℚ) :
    (List.Forall₂ (fun s s' => ∀ i, gtmask i < 1 / 10 → s i = s' i)
        output output' →
      (∀ i, gtmask i < 1 / 10 → toutput i = toutput' i) →
      (trainLosses B output toutput target_var gtmask).kdloss_unlabeled =
        (trainLosses B output' toutput' target_var' gtmask).kdloss_unlabeled)
    ∧ ((∀ i, ¬gtmask i < 1 / 10) →
        (trainLosses B output toutput target_var gtmask).kdloss_unlabeled = 0)
    ∧ (List.Forall₂ (fun s s' => ∀ i, ¬gtmask i < 1 / 10 → s i = s' i)
        output output' →
      (∀ i, ¬gtmask i < 1 / 10 → toutput i = toutput' i) →
      (∀ i, ¬gtmask i < 1 / 10 → target_var i = target_var' i) →
      (trainLosses B output toutput target_var gtmask).gtloss =
          (trainLosses B output' toutput' target_var' gtmask).gtloss ∧
        (trainLosses B output toutput target_var gtmask).kdloss =
          (trainLosses B output' toutput' target_var' gtmask).kdloss)
    ∧ ((∀ i, gtmask i < 1 / 10) →
        (trainLosses B output toutput target_var gtmask).gtloss = 0 ∧
          (trainLosses B output toutput target_var gtmask).kdloss = 0) := by
  rw [trainLosses_eq, trainLosses_eq]
  refine ⟨fun houts hto => spec_unlabeled_kd_congr houts hto,
    fun hall => ?_, fun houts hto htv => ⟨?_, ?_⟩, fun hall => ⟨?_, ?_⟩⟩
  · exact spec_sum_eq_zero output _ fun s i => if_neg (hall i)
  · exact spec_labeled_congr houts htv
  · exact spec_labeled_congr houts hto
  · exact spec_sum_eq_zero output _ fun s i => if_pos (hall i)
  · exact spec_sum_eq_zero output _ fun s i => if_pos (hall i)

/-- Witness for claim C2 at concrete inputs: a fully labeled batch of size 1
(`mask = 1`), where the unlabeled loss ignores the student output entirely,
and a fully unlabeled batch of size 1 (`mask = 0`), where the ground-truth
and labeled losses do. -/
theorem c2_component_dependence_witness :
    ((trainLosses 1 [fun _ => [(0 : ℚ)]] (fun _ => [(0 : ℚ)])
        (fun _ => [(0 : ℚ)]) (fun _ => (1 : ℚ))).kdloss_unlabeled =
      (trainLosses 1 [fun _ => [(5 : ℚ)]] (fun _ => [(7 : ℚ)])
        (fun _ => [(9 : ℚ)]) (fun _ => (1 : ℚ))).kdloss_unlabeled)
    ∧ ((trainLosses 1 [fun _ => [(0 : ℚ)]] (fun _ => [(0 : ℚ)])
        (fun _ => [(0 : ℚ)]) (fun _ => (1 : ℚ))).kdloss_unlabeled = 0)
    ∧ ((trainLosses 1 [fun _ => [(0 : ℚ)]] (fun _ => [(0 : ℚ)])
        (fun _ => [(0 : ℚ)]) (fun _ => (0 : ℚ))).gtloss =
        (trainLosses 1 [fun _ => [(5 : ℚ)]] (fun _ => [(7 : ℚ)])
          (fun _ => [(9 : ℚ)]) (fun _ => (0 : ℚ))).gtloss ∧
      (trainLosses 1 [fun _ => [(0 : ℚ)]] (fun _ => [(0 : ℚ)])
        (fun _ => [(0 : ℚ)]) (fun _ => (0 : ℚ))).kdloss =
        (trainLosses 1 [fun _ => [(5 : ℚ)]] (fun _ => [(7 : ℚ)])
          (fun _ => [(9 : ℚ)]) (fun _ => (0 : ℚ))).kdloss)
    ∧ ((trainLosses 1 [fun _ => [(0 : ℚ)]] (fun _ => [(0 : ℚ)])
        (fun _ => [(0 : ℚ)]) (fun _ => (0 : ℚ))).gtloss = 0 ∧
      (trainLosses 1 [fun _ => [(0 : ℚ)]] (fun _ => [(0 : ℚ)])
        (fun _ => [(0 : ℚ)]) (fun _ => (0 : ℚ))).kdloss = 0) := by
  have hlab : ∀ i : Fin 1, ¬((fun _ : Fin 1 => (1 : ℚ)) i) < 1 / 10 := by
    intro i; norm_num
  have hunl : ∀ i : Fin 1, ((fun _ : Fin 1 => (0 : ℚ)) i) < 1 / 10 := by
    intro i; norm_num
  have T1 := c2_component_dependence 1 [fun _ => [(0 : ℚ)]] [fun _ => [(5 : ℚ)]]
    (fun _ => [(0 : ℚ)]) (fun _ => [(7 : ℚ)]) (fun _ => [(0 : ℚ)])
    (fun _ => [(9 : ℚ)]) (fun _ => (1 : ℚ))
  have T0 := c2_component_dependence 1 [fun _ => [(0 : ℚ)]] [fun _ => [(5 : ℚ)]]
    (fun _ => [(0 : ℚ)]) (fun _ => [(7 : ℚ)]) (fun _ => [(0 : ℚ)])
    (fun _ => [(9 : ℚ)]) (fun _ => (0 : ℚ))
  refine ⟨T1.1 ?_ ?_, T1.2.1 hlab, T0.2.2.1 ?_ ?_ ?_, T0.2.2.2 hunl⟩
  · exact List.Forall₂.cons (fun i hi => absurd hi (hlab i)) List.Forall₂.nil
  · exact fun i hi => absurd hi (hlab i)
  · exact List.Forall₂.cons (fun i hi => absurd (hunl i) hi) List.Forall₂.nil
  · exact fun i hi => absurd (hunl i) hi
  · exact fun i hi => absurd (hunl i) hi

/-- The mean squared error of a heatmap against itself is zero. -/
theorem mseQ_self (a : List ℚ) : mseQ a a = 0 := by
  unfold mseQ
  rw [List.zipWith_same]
  have h : (a.map fun x => (x - x) ^ 2) = a.map (fun _ => 0) :=
    List.map_congr_left fun x _ => by ring
  rw [h, List.map_const', List.sum_replicate, smul_zero, zero_div]

/-- The mean squared error of a heatmap against its shift by a constant δ in
every element is δ². -/
theorem mseQ_map_add_right (a : List ℚ) (δ : ℚ) (h : a.length ≠ 0) :
    mseQ a (a.map (fun x => x + δ)) = δ ^ 2 := by
  unfold mseQ
  rw [List.zipWith_map_right, List.zipWith_same]
  have h2 : (a.map fun x => (x - (x + δ)) ^ 2) = a.map (fun _ => δ ^ 2) :=
    List.map_congr_left fun x _ => by ring
  rw [h2, List.map_const', List.sum_replicate, nsmul_eq_mul]
  exact mul_div_cancel_left₀ _ (by exact_mod_cast h)

/-- Claim C3: for a batch of size 2 with mask `[0, 1]`, one student stage,
and student stage-0 output = teacher output = ground truth everywhere except
that the ground truth of sample 1 differs from the student output by a constant δ
at every one of the 16 = 1×4×4 heatmap elements, the loss components are:
ground-truth loss δ²/2, labeled distillation loss 0, unlabeled distillation
loss 0. -/
theorem c3_concrete_scenario (base : List ℚ) (δ : ℚ) (hlen : base.length = 16) :
    trainLosses 2 [fun _ => base] (fun _ => base)
        ![base, base.map (fun x => x + δ)] ![0, 1] =
      ⟨δ ^ 2 / 2, 0, 0⟩ := by
  have hb : base.length ≠ 0 := by rw [hlen]; norm_num
  rw [trainLosses_eq]
  simp only [spec_gt_loss, spec_labeled_kd, spec_unlabeled_kd, List.map_cons,
    List.map_nil, List.sum_cons, List.sum_nil, add_zero, Fin.sum_univ_two,
    Matrix.cons_val_zero, Matrix.cons_val_one, Matrix.head_cons,
    mseQ_self, mseQ_map_add_right base δ hb, KDLossAcc.mk.injEq]
  norm_num

/-- Witness for claim C3 at the all-zero 16-element base heatmap with
δ = 3: the loss components are ground-truth loss 9/2, labeled distillation
loss 0, unlabeled distillation loss 0. -/
theorem c3_concrete_scenario_witness :
    trainLosses 2 [fun _ => List.replicate 16 (0 : ℚ)]
        (fun _ => List.replicate 16 (0 : ℚ))
        ![List.replicate 16 (0 : ℚ),
          (List.replicate 16 (0 : ℚ)).map (fun x => x + 3)] ![0, 1] =
      ⟨(3 : ℚ) ^ 2 / 2, 0, 0⟩ :=
  c3_concrete_scenario (List.replicate 16 0) 3 (by simp)

/-- `best_acc = 0` (line 30): the fresh-start initial best accuracy. -/
def initial_best_acc : ℚ := 0

/-- One epoch of best-accuracy bookkeeping (lines 139-140):
`is_best = valid_acc > best_acc` and `best_acc = max(valid_acc, best_acc)`. -/
def epoch_update (best_acc valid_acc : ℚ) : Bool × ℚ :=
  (decide (best_acc < valid_acc), max valid_acc best_acc)

/-- The epoch loop of `main` (lines 119-147) restricted to best-accuracy
bookkeeping: given the incoming best accuracy (0 fresh, or the restored
`best_acc` on resume, lines 30 and 74) and the sequence of per-epoch
validation accuracies, emit the `(is_best, best_acc)` pair of each epoch. -/
def run_epochs : ℚ → List ℚ → List (Bool × ℚ)
  | _, [] => []
  | best_acc, valid_acc :: rest =>
      epoch_update best_acc valid_acc ::
        run_epochs (epoch_update best_acc valid_acc).2 rest

/-- The best accuracy after folding a list of validation accuracies into an
initial value, as the epoch loop does. -/
def best_after (init : ℚ) (accs : List ℚ) : ℚ :=
  accs.foldl (fun best_acc valid_acc => max valid_acc best_acc) init

/-- The entry of `run_epochs` at position `k` is the epoch update applied to
the best accuracy accumulated over the first `k` epochs. -/
theorem run_epochs_getElem (init : ℚ) (accs : List ℚ) (k : ℕ) (a : ℚ)
    (ha : accs[k]? = some a) :
    (run_epochs init accs)[k]? =
      some (epoch_update (best_after init (accs.take k)) a) := by
  induction accs generalizing init k with
  | nil => simp at ha
  | cons b rest ih =>
      cases k with
      | zero =>
          simp only [List.getElem?_cons_zero, Option.some.injEq] at ha
          subst ha
          simp [run_epochs, best_after]
      | succ k =>
          simp only [List.getElem?_cons_succ] at ha
          simpa [run_epochs, best_after, List.take_succ_cons] using ih _ k ha

/-- The initial value never exceeds the folded best accuracy. -/
theorem le_best_after (init : ℚ) (accs : List ℚ) : init ≤ best_after init accs := by
  induction accs generalizing init with
  | nil => exact le_refl init
  | cons a rest ih =>
      exact le_trans (le_max_right a init) (ih (max a init))

/-- Extending the epoch prefix by one never decreases the accumulated best
accuracy. -/
theorem best_after_take_le (init : ℚ) (accs : List ℚ) (k : ℕ) :
    best_after init (accs.take k) ≤ best_after init (accs.take (k + 1)) := by
  induction accs generalizing init k with
  | nil => simp
  | cons a rest ih =>
      cases k with
      | zero =>
          simp only [List.take_zero, List.take_succ_cons, List.take_zero]
          exact le_best_after init [a]
      | succ k =>
          simpa [List.take_succ_cons, best_after] using ih (max a init) k

/-- Claim C5: for every run of the epoch loop, with any incoming best
accuracy (fresh 0 or restored from a resume checkpoint), epoch `k` sets
`is_best` exactly when its validation accuracy strictly exceeds the best
accuracy accumulated so far, stores the max of the two as the new best, and
the stored best accuracy never decreases, from the incoming value onward. -/
theorem c5_best_acc_invariant (init : ℚ) (accs : List ℚ) (k : ℕ) (a : ℚ)
    (ha : accs[k]? = some a) :
    (run_epochs init accs)[k]? =
        some (decide (best_after init (accs.take k) < a),
          max a (best_after init (accs.take k)))
      ∧ best_after init (accs.take k) ≤ best_after init (accs.take (k + 1))
      ∧ init ≤ best_after init accs :=
  ⟨run_epochs_getElem init accs k a ha, best_after_take_le init accs k,
    le_best_after init accs⟩

/-- Witness for claim C5: a resumed run with restored best accuracy 2/3 and
validation accuracies 1/2 then 3/4, examined at epoch 0. -/
theorem c5_best_acc_invariant_witness :
    (run_epochs (2 / 3) [1 / 2, 3 / 4])[0]? =
        some (decide (best_after (2 / 3) ([(1 : ℚ) / 2, 3 / 4].take 0) < 1 / 2),
          max (1 / 2) (best_after (2 / 3) ([(1 : ℚ) / 2, 3 / 4].take 0)))
      ∧ best_after (2 / 3) ([(1 : ℚ) / 2, 3 / 4].take 0) ≤
          best_after (2 / 3) ([(1 : ℚ) / 2, 3 / 4].take 1)
      ∧ (2 : ℚ) / 3 ≤ best_after (2 / 3) [1 / 2, 3 / 4] :=
  c5_best_acc_invariant (2 / 3) [1 / 2, 3 / 4] 0 (1 / 2) rfl

/-- Claim C10: on a fresh start the best accuracy is `initial_best_acc = 0`
and the comparison is strict, so an epoch whose validation accuracy is ≤ 0
is never tagged `is_best`, and an epoch tagged `is_best` always has strictly
positive validation accuracy. -/
theorem c10_no_best_until_positive (accs : List ℚ) (k : ℕ) (a : ℚ)
    (ha : accs[k]? = some a) :
    ((run_epochs initial_best_acc accs)[k]?.map Prod.fst = some true → 0 < a)
      ∧ (a ≤ 0 →
        (run_epochs initial_best_acc accs)[k]?.map Prod.fst = some false) := by
  have hb : (0 : ℚ) ≤ best_after initial_best_acc (accs.take k) :=
    le_best_after initial_best_acc (accs.take k)
  rw [run_epochs_getElem initial_best_acc accs k a ha]
  constructor
  · intro h
    simp only [epoch_update, Option.map_some', Option.some.injEq] at h
    exact lt_of_le_of_lt hb (of_decide_eq_true h)
  · intro h
    simp only [epoch_update, Option.map_some', Option.some.injEq,
      decide_eq_false_iff_not, not_lt]
    exact h.trans hb

/-- Witness for claim C10: with fresh best accuracy 0 and a single epoch of
validation accuracy 0, that epoch is not tagged best. -/
theorem c10_no_best_until_positive_witness :
    (((run_epochs initial_best_acc [(0 : ℚ)])[0]?.map Prod.fst = some true →
        (0 : ℚ) < 0)
      ∧ ((0 : ℚ) ≤ 0 →
        (run_epochs initial_best_acc [(0 : ℚ)])[0]?.map Prod.fst = some false))
      ∧ (run_epochs initial_best_acc [(0 : ℚ)])[0]?.map Prod.fst = some false := by
  have h := c10_no_best_until_positive [(0 : ℚ)] 0 0 rfl
  exact ⟨h, h.2 (le_refl 0)⟩

/-- One batch of validation writes (lines 324-327): for each sample `n` of
the batch, the decoded prediction is written into the predictions table at
row `meta.index[n]`. -/
def write_batch {α : Type} (tbl : ℕ → Option α) (batch : List (ℕ × α)) :
    ℕ → Option α :=
  batch.foldl (fun t np => Function.update t np.1 (some np.2)) tbl

/-- The predictions table after a whole validation pass: created once
(line 290) and filled batch by batch in loader order (lines 298, 324-327). -/
def validate_predictions {α : Type} (init : ℕ → Option α)
    (batches : List (List (ℕ × α))) : ℕ → Option α :=
  batches.foldl write_batch init

/-- First value stored under dataset index `k` in an index/value list. -/
def lookupKey {α : Type} (k : ℕ) : List (ℕ × α) → Option α
  | [] => none
  | np :: rest => if np.1 = k then some np.2 else lookupKey k rest

/-- Folding the writes batch by batch is folding them over the concatenated
sample list. -/
theorem validate_predictions_flatten {α : Type} (init : ℕ → Option α)
    (batches : List (List (ℕ × α))) :
    validate_predictions init batches = write_batch init batches.flatten := by
  unfold validate_predictions write_batch
  rw [List.foldl_flatten]

/-- A key absent from the index column looks up to `none`. -/
theorem lookupKey_eq_none {α : Type} {k : ℕ} {l : List (ℕ × α)}
    (h : k ∉ l.map Prod.fst) : lookupKey k l = none := by
  induction l with
  | nil => rfl
  | cons np rest ih =>
      simp only [List.map_cons, List.mem_cons, not_or] at h
      rw [lookupKey, if_neg (fun e => h.1 e.symm)]
      exact ih h.2

/-- With pairwise distinct dataset indices, membership determines lookup. -/
theorem lookupKey_eq_some_of_mem {α : Type} {k : ℕ} {p : α} {l : List (ℕ × α)}
    (hmem : (k, p) ∈ l) (hn : (l.map Prod.fst).Nodup) :
    lookupKey k l = some p := by
  induction l with
  | nil => simp at hmem
  | cons np rest ih =>
      simp only [List.map_cons, List.nodup_cons] at hn
      rcases List.mem_cons.mp hmem with h | h
      · rw [← h, lookupKey, if_pos rfl]
      · have hk : k ∈ rest.map Prod.fst :=
          List.mem_map.mpr ⟨(k, p), h, rfl⟩
        have hne : np.1 ≠ k := fun e => hn.1 (e ▸ hk)
        rw [lookupKey, if_neg hne]
        exact ih h hn.2

/-- The table produced by a fold of writes reads back as a first-key lookup
when the dataset indices are pairwise distinct. -/
theorem write_batch_apply {α : Type} (l : List (ℕ × α)) (init : ℕ → Option α)
    (hn : (l.map Prod.fst).Nodup) (k : ℕ) :
    write_batch init l k =
      (match lookupKey k l with
        | some p => some p
        | none => init k) := by
  induction l generalizing init with
  | nil => rfl
  | cons np rest ih =>
      simp only [List.map_cons, List.nodup_cons] at hn
      have step : write_batch init (np :: rest) =
          write_batch (Function.update init np.1 (some np.2)) rest := rfl
      rw [step, ih _ hn.2]
      by_cases h : np.1 = k
      · subst h
        rw [lookupKey_eq_none hn.1, lookupKey, if_pos rfl]
        exact Function.update_same np.1 (some np.2) init
      · rw [lookupKey, if_neg h]
        cases hl : lookupKey k rest with
        | some p => rfl
        | none => exact Function.update_noteq (fun e => h e.symm) (some np.2) init

/-- Lookup over a duplicate-free index column is invariant under
permutation of the entries. -/
theorem lookupKey_perm {α : Type} {l₁ l₂ : List (ℕ × α)} (h : l₁.Perm l₂) :
    ∀ (_ : (l₁.map Prod.fst).Nodup) (k : ℕ), lookupKey k l₁ = lookupKey k l₂ := by
  induction h with
  | nil => exact fun _ _ => rfl
  | cons x h ih =>
      intro hn k
      simp only [List.map_cons, List.nodup_cons] at hn
      rw [lookupKey, lookupKey]
      by_cases hx : x.1 = k
      · rw [if_pos hx, if_pos hx]
      · rw [if_neg hx, if_neg hx]
        exact ih hn.2 k
  | swap x y l =>
      intro hn k
      simp only [List.map_cons, List.nodup_cons, List.mem_cons, not_or] at hn
      rw [lookupKey, lookupKey, lookupKey, lookupKey]
      by_cases hy : y.1 = k <;> by_cases hx : x.1 = k
      · exact absurd (hy.trans hx.symm) hn.1.1
      · rw [if_pos hy, if_neg hx, if_pos hy]
      · rw [if_neg hy, if_pos hx, if_pos hx]
      · rw [if_neg hy, if_neg hx, if_neg hy, if_neg hx]
  | trans h₁ h₂ ih₁ ih₂ =>
      intro hn k
      have hn₂ := ((h₁.map Prod.fst).nodup_iff).mp hn
      exact (ih₁ hn k).trans (ih₂ hn₂ k)

/-- Claim C7: during validation every decoded prediction lands exactly at
the row given by the dataset index of its sample, and, when every dataset index
occurs exactly once, the completed predictions table is identical under any
reordering of the batches delivered by the validation loader. -/
theorem c7_prediction_table (α : Type) (init : ℕ → Option α)
    (batches batches' : List (List (ℕ × α)))
    (hperm : batches.Perm batches')
    (hnodup : (batches.flatten.map Prod.fst).Nodup) :
    (∀ n p, (n, p) ∈ batches.flatten →
        validate_predictions init batches n = some p)
      ∧ validate_predictions init batches = validate_predictions init batches' := by
  have hflat : batches.flatten.Perm batches'.flatten := hperm.flatten
  have hnodup' : (batches'.flatten.map Prod.fst).Nodup :=
    ((hflat.map Prod.fst).nodup_iff).mp hnodup
  constructor
  · intro n p hmem
    rw [validate_predictions_flatten, write_batch_apply _ _ hnodup,
      lookupKey_eq_some_of_mem hmem hnodup]
  · funext n
    rw [validate_predictions_flatten, validate_predictions_flatten,
      write_batch_apply _ _ hnodup, write_batch_apply _ _ hnodup',
      lookupKey_perm hflat hnodup n]

/-- Witness for claim C7: two singleton batches with dataset indices 0 and 1
delivered in either order produce the same predictions table, and each write
lands at its own index. -/
theorem c7_prediction_table_witness :
    (∀ n p, (n, p) ∈ ([[(0, 5)], [(1, 7)]] : List (List (ℕ × ℕ))).flatten →
        validate_predictions (fun _ => none) [[(0, 5)], [(1, 7)]] n = some p)
      ∧ validate_predictions (fun _ => (none : Option ℕ)) [[(0, 5)], [(1, 7)]] =
        validate_predictions (fun _ => none) [[(1, 7)], [(0, 5)]] :=
  c7_prediction_table ℕ (fun _ => none) [[(0, 5)], [(1, 7)]] [[(1, 7)], [(0, 5)]]
    (List.Perm.swap [(1, 7)] [(0, 5)] []) (by decide)

/-- The image or heatmap of a single sample: channel × height × width entries. -/
abbrev Tensor3 := List (List (List ℚ))

/-- Modelled from the spec: `fliplr` (imported from `pose.utils.transforms`,
which is not part of src) horizontally mirrors an image by reversing the
width axis of every row of every channel. -/
def fliplr (x : Tensor3) : Tensor3 :=
  x.map (fun ch => ch.map List.reverse)

/-- Modelled from the spec: `flip_back` (imported from
`pose.utils.transforms`, which is not part of src) re-maps a heatmap
computed on a mirrored image into the original frame: each keypoint channel
is replaced by its left/right-symmetric partner channel (the
taxonomy-specific pairing `pair`) with its width axis reversed. -/
def flip_back (pair : ℕ → ℕ) (hm : Tensor3) : Tensor3 :=
  (List.range hm.length).map (fun c => (hm.getD (pair c) []).map List.reverse)

/-- Element-wise sum of two heatmaps (`score_map += flip_output`, line 317). -/
def addHeatmap (a b : Tensor3) : Tensor3 :=
  List.zipWith (fun p q => List.zipWith (fun r s => List.zipWith (· + ·) r s) p q) a b

/-- The heatmap `validate` uses for accuracy and decoding (lines 308-317):
the final-stage output `output[-1]`, plus, when the flip flag is set, the
flipped-back final-stage output on the mirrored input. -/
def val_score_map (net : Tensor3 → List Tensor3) (pair : ℕ → ℕ)
    (flip : Bool) (inp : Tensor3) : Tensor3 :=
  let score_map := (net inp).getLastD []
  if flip then
    addHeatmap score_map (flip_back pair ((net (fliplr inp)).getLastD []))
  else score_map

/-- The loss computed by `train` with the full parameter list of `train`
(line 165): the `debug` and `flip` parameters are accepted but the loss
computation (lines 199-220) never reads them. -/
def train_total_loss (B : ℕ) (output : List (Fin B → List ℚ))
    (toutput target_var : Fin B → List ℚ) (gtmask : Fin B → ℚ)
    (kdloss_alpha : ℚ) (debug flip : Bool) : ℚ :=
  total_loss kdloss_alpha (trainLosses B output toutput target_var gtmask)

/-- Claim C6: when the flip flag is enabled, the validation heatmap equals
the element-wise sum of the direct final-stage network output and the
flipped-back final-stage output on the horizontally mirrored input, and the
training loss is independent of the flip flag. -/
theorem c6_flip_validation_only (net : Tensor3 → List Tensor3) (pair : ℕ → ℕ)
    (inp : Tensor3) (flip : Bool) (hflip : flip = true)
    (B : ℕ) (output : List (Fin B → List ℚ))
    (toutput target_var : Fin B → List ℚ) (gtmask : Fin B → ℚ)
    (kdloss_alpha : ℚ) (debug f₁ f₂ : Bool) :
    val_score_map net pair flip inp =
        addHeatmap ((net inp).getLastD [])
          (flip_back pair ((net (fliplr inp)).getLastD []))
      ∧ train_total_loss B output toutput target_var gtmask kdloss_alpha debug f₁ =
        train_total_loss B output toutput target_var gtmask kdloss_alpha debug f₂ := by
  subst hflip
  exact ⟨rfl, rfl⟩

/-- Witness for claim C6 at a concrete one-stage network on a 1×1×2 input
with the identity channel pairing and the flip flag enabled. -/
theorem c6_flip_validation_only_witness :
    val_score_map (fun t => [t]) id true [[[1, 2]]] =
        addHeatmap (([([[([(1 : ℚ), 2])]] : Tensor3)]).getLastD [])
          (flip_back id (([(fliplr [[[(1 : ℚ), 2]]])]).getLastD []))
      ∧ train_total_loss 1 [fun _ => [(0 : ℚ)]] (fun _ => [(0 : ℚ)])
          (fun _ => [(0 : ℚ)]) (fun _ => (1 : ℚ)) (1 / 2) false true =
        train_total_loss 1 [fun _ => [(0 : ℚ)]] (fun _ => [(0 : ℚ)])
          (fun _ => [(0 : ℚ)]) (fun _ => (1 : ℚ)) (1 / 2) false false :=
  c6_flip_validation_only (fun t => [t]) id [[[1, 2]]] true rfl 1
    [fun _ => [(0 : ℚ)]] (fun _ => [(0 : ℚ)]) (fun _ => [(0 : ℚ)])
    (fun _ => (1 : ℚ)) (1 / 2) false true false

/-- Command-line arguments of `main` relevant to resuming: `--resume`
(default the empty string, line 432), `--evaluate` (line 434),
`--start-epoch` (default 0, line 391) and `--epochs` (line 389). -/
structure Args where
  resume : String
  evaluate : Bool
  start_epoch : ℕ
  epochs : ℕ

/-- The fields of a loaded resume checkpoint read by `main`
(lines 73-74). -/
structure Checkpoint where
  epoch : ℕ
  best_acc : ℚ

/-- State after the resume block of `main` (lines 67-84): the starting
epoch, the best accuracy, whether the local variable `logger` was assigned,
and the message printed.  When `resume` is nonempty but the file is missing,
the code prints the message and assigns no `logger` (lines 80-81). -/
structure ResumeState where
  start_epoch : ℕ
  best_acc : ℚ
  logger_defined : Bool
  printed : List String
  deriving DecidableEq

/-- Embedding of the resume block of `main` (lines 67-84). -/
def resume_block (isfile : String → Bool) (load : String → Checkpoint)
    (a : Args) : ResumeState :=
  if a.resume ≠ "" then
    if isfile a.resume then
      ⟨(load a.resume).epoch, (load a.resume).best_acc, true,
        ["=> loading checkpoint"]⟩
    else ⟨a.start_epoch, initial_best_acc, false, ["=> no checkpoint found"]⟩
  else ⟨a.start_epoch, initial_best_acc, true, []⟩

/-- Outcome of `main` after the resume block: evaluate mode returns before
any use of `logger` (lines 112-116); otherwise the epoch loop appends to
`logger` every epoch (line 136) and `logger.close()` runs after the loop
(line 149), so a training run in which `logger` was never assigned raises a
Python NameError at its first use instead of completing. -/
def main_run (isfile : String → Bool) (load : String → Checkpoint)
    (a : Args) : Except String ResumeState :=
  let st := resume_block isfile load a
  if a.evaluate then Except.ok st
  else if st.logger_defined then Except.ok st
  else Except.error "NameError: name logger is not defined"

/-- Claim C8 (code bug): with a nonempty resume path naming a missing file,
the resume block does print the missing-checkpoint message and keeps the
fresh start (epoch 0, best accuracy 0), but the training run then aborts
with a NameError, because `logger` was never assigned, instead of completing
the configured epochs. -/
theorem c8_missing_resume_aborts :
    resume_block (fun _ => false) (fun _ => ⟨0, 0⟩)
        ⟨"missing.pth", false, 0, 1⟩ =
      ⟨0, initial_best_acc, false, ["=> no checkpoint found"]⟩
    ∧ main_run (fun _ => false) (fun _ => ⟨0, 0⟩)
        ⟨"missing.pth", false, 0, 1⟩ =
      Except.error "NameError: name logger is not defined" := by
  constructor <;> rfl

/-- `load_teacher_network` builds the teacher with `num_classes=16` and
`mobile=False` (line 33) no matter which `--num-classes` is configured:
`main` passes it no class count at all (line 51). -/
def teacher_num_classes (cfg_num_classes : ℕ) : ℕ := 16

/-- `mobile=False` in the teacher constructor call (line 33). -/
def teacher_mobile : Bool := false

/-- The student is built with the configured `--num-classes` (line 55). -/
def student_num_classes (cfg_num_classes : ℕ) : ℕ := cfg_num_classes

/-- Shape (channels, height, width) of one student heatmap sample. -/
def student_heatmap_shape (cfg_num_classes h w : ℕ) : ℕ × ℕ × ℕ :=
  (student_num_classes cfg_num_classes, h, w)

/-- Shape (channels, height, width) of one teacher heatmap sample. -/
def teacher_heatmap_shape (cfg_num_classes h w : ℕ) : ℕ × ℕ × ℕ :=
  (teacher_num_classes cfg_num_classes, h, w)

/-- The per-sample distillation squared-error terms (lines 213 and 217)
require the student stage heatmap and the teacher heatmap of a sample to
agree in shape. -/
def distill_well_shaped (cfg_num_classes h w : ℕ) : Prop :=
  student_heatmap_shape cfg_num_classes h w =
    teacher_heatmap_shape cfg_num_classes h w

/-- Claim C9: the teacher is always constructed with exactly 16 keypoint
channels and `mobile=False` regardless of the configured `--num-classes`,
the student uses the configured value, and the distillation shape
precondition holds exactly when the configured value is 16. -/
theorem c9_teacher_sixteen_channels (cfg_num_classes h w : ℕ) :
    teacher_num_classes cfg_num_classes = 16 ∧ teacher_mobile = false ∧
      student_num_classes cfg_num_classes = cfg_num_classes ∧
      (distill_well_shaped cfg_num_classes h w ↔ cfg_num_classes = 16) := by
  refine ⟨rfl, rfl, rfl, ?_⟩
  simp [distill_well_shaped, student_heatmap_shape, teacher_heatmap_shape,
    student_num_classes, teacher_num_classes, Prod.ext_iff]

end MpiiKD
